import Mathlib

/-!
Verification of the eplfantasy roster optimizer (`optimize_roster.py`,
`teamdiff.py`) against its natural-language specification.

The Python sources are shallowly embedded below: machine floats are modelled
as exact rationals (`ℚ`) except in the similarity engine where the source
takes logarithms and square roots, modelled over `ℝ`; code that can raise a
Python exception is modelled with `Except String`.
-/

/-- Name-bearing record: the three identity fields shared by player records,
adjustment-file rows and parsed roster-file rows. Python accesses these as
attributes (`player.first_name`) or dict keys (`a['first_name']`). -/
structure NameRec where
  first_name : String
  last_name : String
  club : String
deriving DecidableEq

/-- One athlete as consumed by `get_player_stats`: identity plus `cost` and
the selected score attribute. A `none` score models a Python `None` value on
the score attribute of the record. -/
structure PlayerRecord extends NameRec where
  cost : ℚ
  score : Option ℚ
deriving DecidableEq

/-- One row of the adjustments (injured-list) file as built by
`get_injured_list`: identity fields plus the devaluation `factor` and the
free-text `news` column. -/
structure AdjEntry extends NameRec where
  factor : ℚ
  news : String
deriving DecidableEq

/-- Python `\w` on a lowered ASCII string: keep letters, digits, underscore. -/
def isWordChar (c : Char) : Bool :=
  c.isAlphanum || c = '_'

/-- `sanitize(s)` from optimize_roster.py: encode to ASCII replacing non-ASCII
characters (with `?`, which the following filter removes), lower-case, and
strip every non-`\w` character. -/
def sanitize (s : String) : String :=
  ((s.toList.map fun c => (if 128 ≤ c.toNat then '?' else c).toLower).filter
    isWordChar).asString

/-- The scanning loop of `player_in_roster`: `fname`, `lname`, `pclub` are the
candidate player's sanitized first name, last name and club; `fn`, `ln`, `cl`
extract the corresponding raw fields from a pool entry (the Python function
takes the dict keys as parameters). The four name rules are tried in source
order; the first pool entry passing any rule under club agreement is
returned. -/
def roster_scan (fname lname pclub : String) (roster : List α)
    (fn ln cl : α → String) : Option α :=
  match roster with
  | [] => none
  | a :: rest =>
    if sanitize (cl a) = pclub then
      let _aln := sanitize (ln a)
      let _afn := sanitize (fn a)
      if _aln = lname ∧ _afn = fname then some a
      else if _aln = lname ∧ fname.length = 0 then some a
      else if _afn = fname ∧ lname.length = 0 then some a
      else if fname.take 1 = _afn.take 1 ∧ _aln = lname then some a
      else roster_scan fname lname pclub rest fn ln cl
    else roster_scan fname lname pclub rest fn ln cl

/-- `player_in_roster(player, roster, first_name=…, last_name=…, club=…)`:
find the candidate in `roster`, matching club first and then name variants.
Returns the matched entry or `none`. -/
def player_in_roster (player : NameRec) (roster : List α)
    (fn ln cl : α → String) : Option α :=
  roster_scan (sanitize player.first_name) (sanitize player.last_name)
    (sanitize player.club) roster fn ln cl

/-- Acceptance predicate as the specification words it (§4.1): club equality
after normalization, and then the disjunction of the four name rules. -/
def acceptsB (player : NameRec) (fn ln cl : α → String) (a : α) : Bool :=
  let fname := sanitize player.first_name
  let lname := sanitize player.last_name
  let _aln := sanitize (ln a)
  let _afn := sanitize (fn a)
  decide (sanitize (cl a) = sanitize player.club) &&
    (decide (_aln = lname ∧ _afn = fname) ||
     decide (_aln = lname ∧ fname.length = 0) ||
     decide (_afn = fname ∧ lname.length = 0) ||
     decide (fname.take 1 = _afn.take 1 ∧ _aln = lname))

/-- The `player_in_roster(player, adjustments)` call in `get_adjustment`,
with the default dict keys. -/
def adj_lookup (player : NameRec) (adjustments : List AdjEntry) :
    Option AdjEntry :=
  player_in_roster player adjustments (fun e => e.first_name)
    (fun e => e.last_name) (fun e => e.club)

/-- `get_adjustment(player, adjustments, threshold)`: start from `adj = 1`,
replace it by the matched entry's factor when the matcher finds one, and
reset to `1` when `adj >= threshold`. -/
def get_adjustment (player : NameRec) (adjustments : List AdjEntry)
    (threshold : ℚ) : ℚ :=
  let adj : ℚ :=
    match adj_lookup player adjustments with
    | some e => e.factor
    | none => 1
  if threshold ≤ adj then 1 else adj

/-- Playing position, `position[:-1]` of the download loop. -/
inductive PlayerPosition where
  | keeper
  | defender
  | midfielder
  | forward
deriving DecidableEq, Inhabited

/-- Role of a variant: the `bench` field, `"starter"` or `"sub"`. -/
inductive Role where
  | starter
  | sub
deriving DecidableEq, Inhabited

def posName : PlayerPosition → String
  | PlayerPosition.keeper => "keeper"
  | PlayerPosition.defender => "defender"
  | PlayerPosition.midfielder => "midfielder"
  | PlayerPosition.forward => "forward"

def roleName : Role → String
  | Role.starter => "starter"
  | Role.sub => "sub"

/-- One decision variant as built by the inner loop of `get_player_stats`.
The Python dict additionally carries eight 0/1 role-times-position indicator
fields and one `id%d` indicator per player id; those are exact functions of
`bench`, `position` and `pid` (the loop sets `stats[pfx+position[:-1]] = 1`
and `player['id%d' % i] = float(player['pid']==i)`), so they are modelled
below as the derived indicators `fieldInd` and `idInd`. -/
structure Variant where
  cost : ℚ
  score : ℚ
  pid : ℕ
  uid : ℕ
  bench : Role
  position : PlayerPosition
  fname : String
  lname : String
  club : String
  name : String
  captain : Bool
deriving DecidableEq, Inhabited

/-- The `name` field: `"%s %s - %s - %s (%d)"` with the role/captaincy
postfix string, then `.strip()`. -/
def variantName (p : PlayerRecord) (pos : PlayerPosition) (r : Role)
    (captain : Bool) (uid : ℕ) : String :=
  (p.first_name ++ " " ++ p.last_name ++ " - " ++ posName pos ++ " - " ++
    (roleName r ++ (if captain then "- captain" else "")) ++ " (" ++
    toString uid ++ ")").trim

/-- Body of the innermost loop of `get_player_stats` for one
(captain, role) combination, given the player's raw score `s`:
`points = s`; `points *= benchfrac` when the variant is a sub;
`points *= 2` when it is a captain variant; `points *= adj`. -/
def mkVariant (p : PlayerRecord) (pos : PlayerPosition) (captain : Bool)
    (r : Role) (s adj benchfrac : ℚ) (pid uid : ℕ) : Variant :=
  let points1 := if r = Role.sub then s * benchfrac else s
  let points2 := if captain then points1 * 2 else points1
  let points := points2 * adj
  { cost := p.cost
    score := points
    pid := pid
    uid := uid
    bench := r
    position := pos
    fname := p.first_name
    lname := p.last_name
    club := p.club
    name := variantName p pos r captain uid
    captain := captain }

/-- The `for captain in [0, 1]: for pfx in ['', 'sub-']:` double loop for one
player: four variants with consecutive uids. A `none` score models a `None`
score attribute, on which the loop's `points *= …` raises a `TypeError`
before any variant of the player is produced. -/
def mkVariants (p : PlayerRecord) (pos : PlayerPosition) (adj benchfrac : ℚ)
    (pid uid : ℕ) : Except String (List Variant) :=
  match p.score with
  | none => Except.error "TypeError: unsupported operand type for *: NoneType"
  | some s => Except.ok
      [ mkVariant p pos false Role.starter s adj benchfrac pid (uid + 1),
        mkVariant p pos false Role.sub s adj benchfrac pid (uid + 2),
        mkVariant p pos true Role.starter s adj benchfrac pid (uid + 3),
        mkVariant p pos true Role.sub s adj benchfrac pid (uid + 4) ]

/-- Per-player adjustment factor: `get_adjustment` when an adjustments list
was loaded, else the default `1.0`. -/
def adjOf (adjustments : Option (List AdjEntry)) (p : PlayerRecord)
    (threshold : ℚ) : ℚ :=
  match adjustments with
  | some l => get_adjustment p.toNameRec l threshold
  | none => 1

/-- The `for player in _players` loop of `get_player_stats` for one position,
threading the `_id` and `_uid` counters. -/
def processPlayers (pos : PlayerPosition) (ps : List PlayerRecord)
    (adjustments : Option (List AdjEntry)) (threshold benchfrac : ℚ)
    (i u : ℕ) : Except String (List Variant × ℕ × ℕ) :=
  match ps with
  | [] => Except.ok ([], i, u)
  | p :: rest =>
    match mkVariants p pos (adjOf adjustments p threshold) benchfrac
        (i + 1) u with
    | Except.error e => Except.error e
    | Except.ok vs =>
      match processPlayers pos rest adjustments threshold benchfrac
          (i + 1) (u + 4) with
      | Except.error e => Except.error e
      | Except.ok (vs2, i2, u2) => Except.ok (vs ++ vs2, i2, u2)

/-- The `for position in _positions` loop of `get_player_stats`. -/
def processAll (posLists : List (PlayerPosition × List PlayerRecord))
    (adjustments : Option (List AdjEntry)) (threshold benchfrac : ℚ)
    (i u : ℕ) : Except String (List Variant × ℕ × ℕ) :=
  match posLists with
  | [] => Except.ok ([], i, u)
  | (pos, ps) :: rest =>
    match processPlayers pos ps adjustments threshold benchfrac i u with
    | Except.error e => Except.error e
    | Except.ok (vs, i2, u2) =>
      match processAll rest adjustments threshold benchfrac i2 u2 with
      | Except.error e => Except.error e
      | Except.ok (vs2, i3, u3) => Except.ok (vs ++ vs2, i3, u3)

/-- `get_player_stats`: download order is forwards, midfielders, defenders,
keepers; counters start at `_id = 0` and `_uid = 990000`. -/
def get_player_stats (forwards midfielders defenders keepers :
    List PlayerRecord) (adjustments : Option (List AdjEntry))
    (threshold benchfrac : ℚ) : Except String (List Variant) :=
  (processAll
      [ (PlayerPosition.forward, forwards),
        (PlayerPosition.midfielder, midfielders),
        (PlayerPosition.defender, defenders),
        (PlayerPosition.keeper, keepers) ]
      adjustments threshold benchfrac 0 990000).map (fun x => x.1)

/-- `values['key']` handed to the constraints lambda by the KSP solver: the
sum of the named numeric field over the currently selected variants. -/
def sumF (f : Variant → ℚ) (sel : List Variant) : ℚ :=
  (sel.map f).sum

/-- The role-times-position 0/1 indicator field of a variant: the generator
sets `stats[pfx+position[:-1]] = 1` exactly for the variant's own role and
position, `0` for the other seven keys. -/
def fieldInd (r : Role) (pos : PlayerPosition) (v : Variant) : ℚ :=
  if v.bench = r ∧ v.position = pos then 1 else 0

/-- The `captain` 0/1 field of a variant. -/
def capInd (v : Variant) : ℚ :=
  if v.captain then 1 else 0

/-- The `id%d` indicator field: `float(player['pid'] == i)`. -/
def idInd (i : ℕ) (v : Variant) : ℚ :=
  if v.pid = i then 1 else 0

/-- `players[-1]['pid']`: the pid of the last variant of the pool. -/
def lastPid (pool : List Variant) : ℕ :=
  (pool.getLastD default).pid

/-- The `constraints` lambda of `optimize`, in source order: budget, forward
bounds and total, midfielder bounds and total, defender bounds and total,
keeper equalities, captaincy, total substitutes, and the uniqueness family
`values['id%d' % i] <= 1` for every `i` in `range(players[-1]['pid'] + 1)`
(`allIds` is that exclusive upper bound). -/
def constraints (budget : ℚ) (allIds : ℕ) (sel : List Variant) : Prop :=
  sumF Variant.cost sel ≤ budget ∧
  1 ≤ sumF (fieldInd Role.starter PlayerPosition.forward) sel ∧
  sumF (fieldInd Role.starter PlayerPosition.forward) sel ≤ 3 ∧
  sumF (fieldInd Role.starter PlayerPosition.forward) sel +
    sumF (fieldInd Role.sub PlayerPosition.forward) sel = 3 ∧
  3 ≤ sumF (fieldInd Role.starter PlayerPosition.midfielder) sel ∧
  sumF (fieldInd Role.starter PlayerPosition.midfielder) sel ≤ 5 ∧
  sumF (fieldInd Role.starter PlayerPosition.midfielder) sel +
    sumF (fieldInd Role.sub PlayerPosition.midfielder) sel = 5 ∧
  3 ≤ sumF (fieldInd Role.starter PlayerPosition.defender) sel ∧
  sumF (fieldInd Role.starter PlayerPosition.defender) sel ≤ 5 ∧
  sumF (fieldInd Role.starter PlayerPosition.defender) sel +
    sumF (fieldInd Role.sub PlayerPosition.defender) sel = 5 ∧
  sumF (fieldInd Role.starter PlayerPosition.keeper) sel = 1 ∧
  sumF (fieldInd Role.sub PlayerPosition.keeper) sel = 1 ∧
  sumF capInd sel = 1 ∧
  sumF (fieldInd Role.sub PlayerPosition.forward) sel +
    sumF (fieldInd Role.sub PlayerPosition.midfielder) sel +
    sumF (fieldInd Role.sub PlayerPosition.defender) sel +
    sumF (fieldInd Role.sub PlayerPosition.keeper) sel = 4 ∧
  ∀ i, i < allIds → sumF (idInd i) sel ≤ 1

/-- Number of selected variants with the given role and position. -/
def countRP (r : Role) (pos : PlayerPosition) (sel : List Variant) : ℕ :=
  (sel.filter fun v => decide (v.bench = r ∧ v.position = pos)).length

/-- Number of selected variants of player id `i`. -/
def countPid (i : ℕ) (sel : List Variant) : ℕ :=
  (sel.filter fun v => decide (v.pid = i)).length

/-- The constraint set as the specification words it (§4.4 and claim C1):
integer counts per role and position, the formation rule table, captaincy,
the substitutes total, and one uniqueness constraint per distinct player id
occurring in the variant pool. -/
def specConstraints (budget : ℚ) (pool sel : List Variant) : Prop :=
  sumF Variant.cost sel ≤ budget ∧
  1 ≤ countRP Role.starter PlayerPosition.forward sel ∧
  countRP Role.starter PlayerPosition.forward sel ≤ 3 ∧
  countRP Role.starter PlayerPosition.forward sel +
    countRP Role.sub PlayerPosition.forward sel = 3 ∧
  3 ≤ countRP Role.starter PlayerPosition.midfielder sel ∧
  countRP Role.starter PlayerPosition.midfielder sel ≤ 5 ∧
  countRP Role.starter PlayerPosition.midfielder sel +
    countRP Role.sub PlayerPosition.midfielder sel = 5 ∧
  3 ≤ countRP Role.starter PlayerPosition.defender sel ∧
  countRP Role.starter PlayerPosition.defender sel ≤ 5 ∧
  countRP Role.starter PlayerPosition.defender sel +
    countRP Role.sub PlayerPosition.defender sel = 5 ∧
  countRP Role.starter PlayerPosition.keeper sel = 1 ∧
  countRP Role.sub PlayerPosition.keeper sel = 1 ∧
  (sel.filter fun v => v.captain).length = 1 ∧
  countRP Role.sub PlayerPosition.forward sel +
    countRP Role.sub PlayerPosition.midfielder sel +
    countRP Role.sub PlayerPosition.defender sel +
    countRP Role.sub PlayerPosition.keeper sel = 4 ∧
  ∀ i ∈ pool.map Variant.pid, countPid i sel ≤ 1

instance (budget : ℚ) (allIds : ℕ) (sel : List Variant) :
    Decidable (constraints budget allIds sel) := by
  unfold constraints
  infer_instance

instance (budget : ℚ) (pool sel : List Variant) :
    Decidable (specConstraints budget pool sel) := by
  unfold specConstraints
  infer_instance

/-- Decimal digits to a natural number, Python `int(...)` on a digit run. -/
def digitsToNat (ds : List Char) : ℕ :=
  ds.foldl (fun n c => 10 * n + (c.toNat - 48)) 0

/-- `re.search(r'\((\d+)\)', name)`: scan left to right for the first `(`
that is followed by a nonempty digit run and a closing `)`; return that
number. -/
def scanUid : List Char → Option ℕ
  | [] => none
  | c :: rest =>
    if c = '(' then
      let ds := rest.takeWhile Char.isDigit
      match rest.drop ds.length with
      | ')' :: _ => if ds.isEmpty then scanUid rest else some (digitsToNat ds)
      | _ => scanUid rest
    else scanUid rest

def findUid (s : String) : Option ℕ :=
  scanUid s.toList

/-- The uid-collection loop of `print_results`: one uid per solver-returned
variant name, raising `ValueError` when a name has no parenthesized number. -/
def extract_uids (names : List String) : Except String (List ℕ) :=
  match names with
  | [] => Except.ok []
  | n :: rest =>
    match findUid n with
    | none => Except.error ("ValueError: cannot find UID in " ++ n)
    | some u =>
      match extract_uids rest with
      | Except.error e => Except.error e
      | Except.ok us => Except.ok (u :: us)

/-- The roster-reconstruction part of `print_results`: parse a uid out of
every selected variant name, then keep every pool variant whose uid is among
them. No size check of any kind is performed on the result. -/
def decode_roster (names : List String) (players : List Variant) :
    Except String (List Variant) :=
  match extract_uids names with
  | Except.error e => Except.error e
  | Except.ok uids =>
    Except.ok (players.filter fun v => decide (v.uid ∈ uids))

/-- The `total_cost` accumulation loop of `print_results`. -/
def total_cost (roster : List Variant) : ℚ :=
  (roster.map Variant.cost).sum

/-- Python 2 `round` to zero decimal places: nearest integer, halves rounded
away from zero (modelled exactly over `ℚ`). -/
def pyRound (q : ℚ) : ℚ :=
  if 0 ≤ q then ((⌊q + 1 / 2⌋ : ℤ) : ℚ) else ((-⌊-q + 1 / 2⌋ : ℤ) : ℚ)

/-- `under_budget = round(budget - total_cost); if under_budget == 0:
under_budget = 0.` — the reassignment canonicalizes the float `-0.0` (the
result of rounding a small negative slack) to `0.0`; over `ℚ` it is the
identity on the zero case. -/
def under_budget (budget cost : ℚ) : ℚ :=
  let u := pyRound (budget - cost)
  if u = 0 then 0 else u

/-- The budget slack figure printed by `print_results` for a roster. -/
def reported_slack (budget : ℚ) (roster : List Variant) : ℚ :=
  under_budget budget (total_cost roster)

/-- A player record as consumed by `teamdiff.team_similarity`: identity plus
the `ownership` frequency field (`freqfield='ownership'`). -/
structure TDPlayer extends NameRec where
  ownership : ℚ
deriving DecidableEq

/-- `optr.player_in_roster(player, roster) is not None` with the default dict
keys, for a parsed roster-file row. -/
def in_roster (p : TDPlayer) (roster : List NameRec) : Bool :=
  (player_in_roster p.toNameRec roster (fun e => e.first_name)
    (fun e => e.last_name) (fun e => e.club)).isSome

/-- `ipf = np.log(1./freq)`, the inverse-frequency weight. -/
noncomputable def ipf (p : TDPlayer) : ℝ :=
  Real.log (1 / (p.ownership : ℝ))

/-- The vector-building loop of `team_similarity`: `v1` and `v2` are indexed
by the player pool; players in neither roster are skipped (both components
stay `0`), otherwise each component is the player's `ipf` weight when the
player matches the corresponding roster. -/
noncomputable def team_vectors (roster1 roster2 : List NameRec)
    (players : List TDPlayer) : List (ℝ × ℝ) :=
  players.map fun p =>
    let in1 := in_roster p roster1
    let in2 := in_roster p roster2
    if !in1 && !in2 then (0, 0)
    else ((if in1 then ipf p else 0), (if in2 then ipf p else 0))

/-- `team_similarity`: `np.dot(v1, v2) / (np.linalg.norm(v1) *
np.linalg.norm(v2))`, returned unconditionally. The source performs no
degeneracy check; with a zero vector the float computation yields `0/0 =
NaN`, rendered in this exact model by the `ℝ` division-by-zero convention
`x / 0 = 0`. -/
noncomputable def team_similarity (roster1 roster2 : List NameRec)
    (players : List TDPlayer) : ℝ :=
  let vs := team_vectors roster1 roster2 players
  ((vs.map fun x => x.1 * x.2).sum) /
    (Real.sqrt ((vs.map fun x => x.1 * x.1).sum) *
      Real.sqrt ((vs.map fun x => x.2 * x.2).sum))

/-- Shorthand for a concrete player record with unit cost. -/
def mkP (f l c : String) (s : ℚ) : PlayerRecord :=
  { first_name := f, last_name := l, club := c, cost := 1, score := some s }

def cexForwards : List PlayerRecord :=
  [mkP "Fa" "One" "c1" 9, mkP "Fb" "Two" "c2" 8, mkP "Fc" "Three" "c3" 7]

def cexMids : List PlayerRecord :=
  [mkP "Ma" "One" "c1" 9, mkP "Mb" "Two" "c2" 8, mkP "Mc" "Three" "c3" 7,
   mkP "Md" "Four" "c4" 6, mkP "Me" "Five" "c5" 5]

def cexDefs : List PlayerRecord :=
  [mkP "Da" "One" "c1" 9, mkP "Db" "Two" "c2" 8, mkP "Dc" "Three" "c3" 7,
   mkP "Dd" "Four" "c4" 6, mkP "De" "Five" "c5" 5]

def cexKeepers : List PlayerRecord :=
  [mkP "Ka" "One" "c1" 9, mkP "Kb" "Two" "c2" 8]

/-- The full variant pool generated for the 15 players above (no adjustments
file, bench fraction 1/10): 60 variants, pids 1–15, uids 990001–990060. -/
def cexPool : List Variant :=
  match get_player_stats cexForwards cexMids cexDefs cexKeepers none 1
      (1 / 10) with
  | Except.ok vs => vs
  | Except.error _ => []

/-- Selected uids: forward Fa starts, Fb and Fc sub; midfielders Ma–Md start,
Me subs; defenders Da–De all start; keeper Ka starts; keeper Kb is selected
as its sub *captain* variant (uid 990060). -/
def cexUids : List ℕ :=
  [990001, 990006, 990010, 990013, 990017, 990021, 990025, 990030,
   990033, 990037, 990041, 990045, 990049, 990053, 990060]

def cexSel : List Variant :=
  cexPool.filter fun v => decide (v.uid ∈ cexUids)

/-- A keeper subject to an injury adjustment, §8 scenario. -/
def hart : PlayerRecord :=
  { first_name := "Joe", last_name := "Hart", club := "MCI", cost := 5,
    score := some 10 }

def hartAdj : AdjEntry :=
  { first_name := "Joe", last_name := "Hart", club := "MCI", factor := 3 / 10,
    news := "knee injury" }

/-- An adjustment entry with factor 0, the extreme of the documented factor
range `[0,1]`. -/
def zeroAdj : AdjEntry :=
  { first_name := "Edson", last_name := "Arantes", club := "Santos",
    factor := 0, news := "retired" }

def zeroPlayer : NameRec :=
  { first_name := "Edson", last_name := "Arantes", club := "Santos" }

/-- A player record whose score attribute is `None`. -/
def badPlayer : PlayerRecord :=
  { first_name := "Null", last_name := "Score", club := "c9", cost := 1,
    score := none }

def c7keeper : PlayerRecord :=
  { first_name := "K", last_name := "One", club := "c1", cost := 4,
    score := some 7 }

/-- Variant pool of a single keeper: 4 variants, uids 990001–990004. -/
def c7pool : List Variant :=
  match get_player_stats [] [] [] [c7keeper] none 1 (1 / 10) with
  | Except.ok vs => vs
  | Except.error _ => []

/-- A solver output selecting exactly one variant of the pool above. -/
def c7names : List String :=
  ["K One - keeper - starter (990001)"]

def c7out : List Variant :=
  c7pool.filter fun v => decide (v.uid ∈ [990001])

/-- A decoded roster whose total cost is 99.6, leaving slack 0.4 of a
budget of 100. -/
def c8roster : List Variant :=
  [{ cost := 498 / 5, score := 0, pid := 1, uid := 990001,
     bench := Role.starter, position := PlayerPosition.keeper, fname := "A",
     lname := "B", club := "C", name := "A B - keeper - starter (990001)",
     captain := false }]

def c9players : List TDPlayer :=
  [{ first_name := "A", last_name := "B", club := "C", ownership := 1 / 2 }]

def c9roster2 : List NameRec :=
  [{ first_name := "A", last_name := "B", club := "C" }]

theorem player_in_roster_eq_find (player : NameRec) (roster : List α)
    (fn ln cl : α → String) :
    player_in_roster player roster fn ln cl =
      roster.find? (acceptsB player fn ln cl) := by
  unfold player_in_roster
  induction roster with
  | nil => rfl
  | cons a rest ih =>
    rw [roster_scan, List.find?]
    by_cases hc : sanitize (cl a) = sanitize player.club
    · simp only [hc, if_true]
      by_cases h1 : sanitize (ln a) = sanitize player.last_name ∧
          sanitize (fn a) = sanitize player.first_name
      · simp [acceptsB, hc, h1]
      · by_cases h2 : sanitize (ln a) = sanitize player.last_name ∧
            (sanitize player.first_name).length = 0
        · simp [acceptsB, hc, h1, h2]
        · by_cases h3 : sanitize (fn a) = sanitize player.first_name ∧
              (sanitize player.last_name).length = 0
          · simp [acceptsB, hc, h1, h2, h3]
          · by_cases h4 : (sanitize player.first_name).take 1 =
                (sanitize (fn a)).take 1 ∧
                sanitize (ln a) = sanitize player.last_name
            · simp [acceptsB, hc, h1, h2, h3, h4]
            · simp only [h1, h2, h3, h4, if_false]
              have : acceptsB player fn ln cl a = false := by
                simp [acceptsB, h1, h2, h3, h4]
              rw [this]
              exact ih
    · simp only [hc, if_false]
      have : acceptsB player fn ln cl a = false := by
        simp [acceptsB, hc]
      rw [this]
      exact ih

theorem getLastD_irrel (l : List α) (h : l ≠ []) (d1 d2 : α) :
    l.getLastD d1 = l.getLastD d2 := by
  cases l with
  | nil => exact absurd rfl h
  | cons a t => rfl

theorem getLastD_append_right (l1 l2 : List α) (h : l2 ≠ []) (d : α) :
    (l1 ++ l2).getLastD d = l2.getLastD d := by
  induction l1 generalizing d with
  | nil => rfl
  | cons a t ih =>
    rw [List.cons_append, List.getLastD_cons, ih a]
    exact getLastD_irrel l2 h a d

theorem sumF_count (p : Variant → Prop) [DecidablePred p] (sel : List Variant) :
    sumF (fun v => if p v then (1 : ℚ) else 0) sel =
      ((sel.filter fun v => decide (p v)).length : ℚ) := by
  induction sel with
  | nil => simp [sumF]
  | cons a l ih =>
    simp only [sumF, List.map_cons, List.sum_cons, List.filter_cons] at ih ⊢
    by_cases h : p a
    · simp only [h, if_true, decide_eq_true_eq, ih, List.length_cons]
      push_cast
      ring
    · simp only [h, if_false, decide_eq_true_eq, ih]
      simp [h]

theorem sumF_fieldInd (r : Role) (pos : PlayerPosition) (sel : List Variant) :
    sumF (fieldInd r pos) sel = (countRP r pos sel : ℚ) := by
  unfold fieldInd countRP
  exact sumF_count (fun v => v.bench = r ∧ v.position = pos) sel

theorem sumF_idInd (i : ℕ) (sel : List Variant) :
    sumF (idInd i) sel = (countPid i sel : ℚ) := by
  unfold idInd countPid
  exact sumF_count (fun v => v.pid = i) sel

theorem sumF_capInd (sel : List Variant) :
    sumF capInd sel = (((sel.filter fun v => v.captain).length : ℕ) : ℚ) := by
  induction sel with
  | nil => simp [sumF]
  | cons a l ih =>
    simp only [sumF, List.map_cons, List.sum_cons, List.filter_cons] at ih ⊢
    cases h : a.captain
    · simp [capInd, h, ih]
    · simp only [capInd, h, if_true, ih, List.length_cons]
      push_cast
      ring

/-- The code constraint set with every 0/1 indicator sum re-expressed as an
integer count. -/
def countConstraints (budget : ℚ) (allIds : ℕ) (sel : List Variant) : Prop :=
  sumF Variant.cost sel ≤ budget ∧
  1 ≤ countRP Role.starter PlayerPosition.forward sel ∧
  countRP Role.starter PlayerPosition.forward sel ≤ 3 ∧
  countRP Role.starter PlayerPosition.forward sel +
    countRP Role.sub PlayerPosition.forward sel = 3 ∧
  3 ≤ countRP Role.starter PlayerPosition.midfielder sel ∧
  countRP Role.starter PlayerPosition.midfielder sel ≤ 5 ∧
  countRP Role.starter PlayerPosition.midfielder sel +
    countRP Role.sub PlayerPosition.midfielder sel = 5 ∧
  3 ≤ countRP Role.starter PlayerPosition.defender sel ∧
  countRP Role.starter PlayerPosition.defender sel ≤ 5 ∧
  countRP Role.starter PlayerPosition.defender sel +
    countRP Role.sub PlayerPosition.defender sel = 5 ∧
  countRP Role.starter PlayerPosition.keeper sel = 1 ∧
  countRP Role.sub PlayerPosition.keeper sel = 1 ∧
  (sel.filter fun v => v.captain).length = 1 ∧
  countRP Role.sub PlayerPosition.forward sel +
    countRP Role.sub PlayerPosition.midfielder sel +
    countRP Role.sub PlayerPosition.defender sel +
    countRP Role.sub PlayerPosition.keeper sel = 4 ∧
  ∀ i, i < allIds → countPid i sel ≤ 1

theorem constraints_iff_counts (budget : ℚ) (allIds : ℕ) (sel : List Variant) :
    constraints budget allIds sel ↔ countConstraints budget allIds sel := by
  unfold constraints countConstraints
  rw [sumF_capInd]
  simp only [sumF_fieldInd, sumF_idInd]
  norm_cast

theorem mkVariants_pid (p : PlayerRecord) (pos : PlayerPosition)
    (adj bf : ℚ) (pid uid : ℕ) (vs : List Variant)
    (hok : mkVariants p pos adj bf pid uid = Except.ok vs) :
    vs ≠ [] ∧ (∀ v ∈ vs, v.pid = pid) ∧ ∀ d, (vs.getLastD d).pid = pid := by
  cases hs : p.score with
  | none => rw [mkVariants, hs] at hok; cases hok
  | some s =>
    rw [mkVariants, hs] at hok
    simp only [Except.ok.injEq] at hok
    subst hok
    refine ⟨by simp, ?_, ?_⟩
    · intro v hv
      simp only [List.mem_cons, List.not_mem_nil, or_false] at hv
      rcases hv with rfl | rfl | rfl | rfl <;> rfl
    · intro d
      rfl

theorem processPlayers_spec (pos : PlayerPosition)
    (adjs : Option (List AdjEntry)) (thr bf : ℚ) (ps : List PlayerRecord) :
    ∀ (i u : ℕ) (vs : List Variant) (i2 u2 : ℕ),
      processPlayers pos ps adjs thr bf i u = Except.ok (vs, i2, u2) →
      i ≤ i2 ∧ (∀ v ∈ vs, i < v.pid ∧ v.pid ≤ i2) ∧
        (vs = [] → i2 = i) ∧ (vs ≠ [] → ∀ d, (vs.getLastD d).pid = i2) := by
  induction ps with
  | nil =>
    intro i u vs i2 u2 h
    rw [processPlayers] at h
    simp only [Except.ok.injEq, Prod.mk.injEq] at h
    obtain ⟨rfl, rfl, rfl⟩ := h
    exact ⟨le_refl i, by simp, fun _ => rfl, fun hne => absurd rfl hne⟩
  | cons p rest ih =>
    intro i u vs i2 u2 h
    rw [processPlayers] at h
    split at h
    · cases h
    · rename_i vs1 h1
      split at h
      · cases h
      · rename_i t vs2 ia ua h2
        simp only [Except.ok.injEq, Prod.mk.injEq] at h
        obtain ⟨rfl, rfl, rfl⟩ := h
        obtain ⟨hne1, hpid1, hlast1⟩ := mkVariants_pid _ _ _ _ _ _ _ h1
        obtain ⟨hle, hpid2, hemp2, hlast2⟩ := ih _ _ _ _ _ h2
        refine ⟨Nat.le_trans (Nat.le_succ i) hle, ?_, ?_, ?_⟩
        · intro v hv
          rcases List.mem_append.mp hv with hv1 | hv2
          · rw [hpid1 v hv1]
            exact ⟨Nat.lt_succ_self i, hle⟩
          · obtain ⟨ha, hb⟩ := hpid2 v hv2
            exact ⟨Nat.lt_of_succ_le (Nat.le_of_lt ha), hb⟩
        · intro hvs
          exact absurd (List.append_eq_nil.mp hvs).1 hne1
        · intro _ d
          by_cases hvs2 : vs2 = []
          · subst hvs2
            rw [List.append_nil]
            rw [hlast1 d, hemp2 rfl]
          · rw [getLastD_append_right vs1 vs2 hvs2 d]
            exact hlast2 hvs2 d

theorem processAll_spec (adjs : Option (List AdjEntry)) (thr bf : ℚ)
    (posLists : List (PlayerPosition × List PlayerRecord)) :
    ∀ (i u : ℕ) (vs : List Variant) (i2 u2 : ℕ),
      processAll posLists adjs thr bf i u = Except.ok (vs, i2, u2) →
      i ≤ i2 ∧ (∀ v ∈ vs, i < v.pid ∧ v.pid ≤ i2) ∧
        (vs = [] → i2 = i) ∧ (vs ≠ [] → ∀ d, (vs.getLastD d).pid = i2) := by
  induction posLists with
  | nil =>
    intro i u vs i2 u2 h
    rw [processAll] at h
    simp only [Except.ok.injEq, Prod.mk.injEq] at h
    obtain ⟨rfl, rfl, rfl⟩ := h
    exact ⟨le_refl i, by simp, fun _ => rfl, fun hne => absurd rfl hne⟩
  | cons pr rest ih =>
    intro i u vs i2 u2 h
    obtain ⟨pos, ps⟩ := pr
    rw [processAll] at h
    split at h
    · cases h
    · rename_i t1 vs1 ia ua h1
      split at h
      · cases h
      · rename_i t2 vs2 ib ub h2
        simp only [Except.ok.injEq, Prod.mk.injEq] at h
        obtain ⟨rfl, rfl, rfl⟩ := h
        obtain ⟨hle1, hpid1, hemp1, hlast1⟩ := processPlayers_spec _ _ _ _ _ _ _ _ _ _ h1
        obtain ⟨hle2, hpid2, hemp2, hlast2⟩ := ih _ _ _ _ _ h2
        refine ⟨Nat.le_trans hle1 hle2, ?_, ?_, ?_⟩
        · intro v hv
          rcases List.mem_append.mp hv with hv1 | hv2
          · obtain ⟨ha, hb⟩ := hpid1 v hv1
            exact ⟨ha, Nat.le_trans hb hle2⟩
          · obtain ⟨ha, hb⟩ := hpid2 v hv2
            exact ⟨Nat.lt_of_le_of_lt hle1 ha, hb⟩
        · intro hvs
          obtain ⟨hv1, hv2⟩ := List.append_eq_nil.mp hvs
          rw [hemp2 hv2, hemp1 hv1]
        · intro hvs d
          by_cases hvs2 : vs2 = []
          · subst hvs2
            rw [List.append_nil] at hvs ⊢
            rw [hlast1 hvs d, hemp2 rfl]
          · rw [getLastD_append_right vs1 vs2 hvs2 d]
            exact hlast2 hvs2 d

theorem countPid_eq_zero (i : ℕ) (sel : List Variant)
    (h : ∀ v ∈ sel, v.pid ≠ i) : countPid i sel = 0 := by
  unfold countPid
  rw [List.length_eq_zero, List.filter_eq_nil_iff]
  intro v hv
  simp only [decide_eq_true_eq]
  exact h v hv

theorem adj_lookup_mem (player : NameRec) (adjustments : List AdjEntry)
    (e : AdjEntry) (h : adj_lookup player adjustments = some e) :
    e ∈ adjustments := by
  unfold adj_lookup at h
  rw [player_in_roster_eq_find] at h
  exact List.mem_of_find?_eq_some h

theorem get_adjustment_hart_half :
    get_adjustment hart.toNameRec [hartAdj] (1 / 2) = 3 / 10 := by
  have hlk : adj_lookup hart.toNameRec [hartAdj] = some hartAdj := rfl
  unfold get_adjustment
  rw [hlk]
  norm_num [hartAdj]

theorem get_adjustment_hart_fifth :
    get_adjustment hart.toNameRec [hartAdj] (1 / 5) = 1 := by
  have hlk : adj_lookup hart.toNameRec [hartAdj] = some hartAdj := rfl
  unfold get_adjustment
  rw [hlk]
  norm_num [hartAdj]

/-- C4: the Identity Matcher scans the pool left to right and returns the
first entry whose normalized club equals the candidate's and which passes
one of the four name rules, `none` on an empty pool or when no entry
qualifies; any returned entry agrees on the normalized club, so a club
mismatch disqualifies regardless of name equality. -/
theorem identity_matcher_spec (player : NameRec) (roster : List α)
    (fn ln cl : α → String) :
    player_in_roster player roster fn ln cl =
      roster.find? (acceptsB player fn ln cl) ∧
    player_in_roster player ([] : List α) fn ln cl = none ∧
    ∀ a, player_in_roster player roster fn ln cl = some a →
      sanitize (cl a) = sanitize player.club := by
  refine ⟨player_in_roster_eq_find player roster fn ln cl, rfl, ?_⟩
  intro a ha
  rw [player_in_roster_eq_find] at ha
  have hacc := List.find?_some ha
  simp only [acceptsB, Bool.and_eq_true, decide_eq_true_eq] at hacc
  exact hacc.1

theorem identity_matcher_spec_witness :
    player_in_roster zeroPlayer [zeroAdj] (fun e => e.first_name)
        (fun e => e.last_name) (fun e => e.club) =
      [zeroAdj].find? (acceptsB zeroPlayer (fun e => e.first_name)
        (fun e => e.last_name) (fun e => e.club)) ∧
    sanitize zeroAdj.club = sanitize zeroPlayer.club :=
  ⟨(identity_matcher_spec zeroPlayer [zeroAdj] _ _ _).1,
   (identity_matcher_spec zeroPlayer [zeroAdj] (fun e => e.first_name)
      (fun e => e.last_name) (fun e => e.club)).2.2 zeroAdj rfl⟩

/-- C5 counterexample: an adjustment entry with factor 0 (inside the
documented factor range [0,1]) is returned verbatim when it is below the
threshold, so the resolver's result is 0, outside the claimed range
(0,1]. -/
theorem adjustment_zero_factor_cex :
    (0 ≤ zeroAdj.factor ∧ zeroAdj.factor ≤ 1) ∧
    get_adjustment zeroPlayer [zeroAdj] 1 = 0 ∧
    ¬ 0 < get_adjustment zeroPlayer [zeroAdj] 1 := by
  have hlk : adj_lookup zeroPlayer [zeroAdj] = some zeroAdj := rfl
  have hval : get_adjustment zeroPlayer [zeroAdj] 1 = 0 := by
    unfold get_adjustment
    rw [hlk]
    norm_num [zeroAdj]
  refine ⟨⟨by norm_num [zeroAdj], by norm_num [zeroAdj]⟩, hval, ?_⟩
  rw [hval]
  norm_num

/-- C5 (amended): with all factors in [0,1] the Adjustment Resolver returns
a value in the closed interval [0,1] (0 is attainable, so (0,1] is wrong);
it returns 1.0 on no match, and otherwise the matched entry's factor unless
that factor is ≥ threshold, in which case 1.0. -/
theorem adjustment_resolver_range (player : NameRec)
    (adjustments : List AdjEntry) (threshold : ℚ)
    (hf : ∀ e ∈ adjustments, 0 ≤ e.factor ∧ e.factor ≤ 1) :
    (0 ≤ get_adjustment player adjustments threshold ∧
      get_adjustment player adjustments threshold ≤ 1) ∧
    (adj_lookup player adjustments = none →
      get_adjustment player adjustments threshold = 1) ∧
    ∀ e, adj_lookup player adjustments = some e →
      get_adjustment player adjustments threshold =
        if threshold ≤ e.factor then 1 else e.factor := by
  cases hm : adj_lookup player adjustments with
  | none =>
    have hval : get_adjustment player adjustments threshold = 1 := by
      unfold get_adjustment
      rw [hm]
      show (if threshold ≤ (1 : ℚ) then (1 : ℚ) else 1) = 1
      split_ifs <;> rfl
    exact ⟨by rw [hval]; norm_num, fun _ => hval, fun e he => by cases he⟩
  | some e =>
    obtain ⟨h0, h1⟩ := hf e (adj_lookup_mem player adjustments e hm)
    have hval : get_adjustment player adjustments threshold =
        if threshold ≤ e.factor then 1 else e.factor := by
      unfold get_adjustment
      rw [hm]
    refine ⟨?_, ?_, ?_⟩
    · rw [hval]
      split_ifs with h
      · norm_num
      · exact ⟨h0, h1⟩
    · intro hnone
      cases hnone
    · intro e2 he2
      injection he2 with he2
      rw [← he2]
      exact hval

theorem adjustment_resolver_range_witness :
    (0 ≤ get_adjustment hart.toNameRec [hartAdj] (1 / 5) ∧
      get_adjustment hart.toNameRec [hartAdj] (1 / 5) ≤ 1) ∧
    (adj_lookup hart.toNameRec [hartAdj] = none →
      get_adjustment hart.toNameRec [hartAdj] (1 / 5) = 1) ∧
    ∀ e, adj_lookup hart.toNameRec [hartAdj] = some e →
      get_adjustment hart.toNameRec [hartAdj] (1 / 5) =
        if (1 / 5 : ℚ) ≤ e.factor then 1 else e.factor :=
  adjustment_resolver_range hart.toNameRec [hartAdj] (1 / 5)
    (by intro e he
        simp only [List.mem_singleton] at he
        rw [he]
        constructor <;> norm_num [hartAdj])

/-- C10: the Adjustment Resolver returns a value different from 1.0 only
when the Identity Matcher found a match, so the diagnostic printed exactly
when the result is ≠ 1.0 never dereferences a `None` match. -/
theorem adjustment_diagnostic_safe (player : NameRec)
    (adjustments : List AdjEntry) (threshold : ℚ)
    (h : get_adjustment player adjustments threshold ≠ 1) :
    (adj_lookup player adjustments).isSome = true := by
  cases hm : adj_lookup player adjustments with
  | none =>
    exfalso
    apply h
    unfold get_adjustment
    rw [hm]
    show (if threshold ≤ (1 : ℚ) then (1 : ℚ) else 1) = 1
    split_ifs <;> rfl
  | some e => rfl

theorem adjustment_diagnostic_safe_witness :
    get_adjustment hart.toNameRec [hartAdj] (1 / 2) ≠ 1 ∧
    (adj_lookup hart.toNameRec [hartAdj]).isSome = true := by
  have hne : get_adjustment hart.toNameRec [hartAdj] (1 / 2) ≠ 1 := by
    rw [get_adjustment_hart_half]
    norm_num
  exact ⟨hne, adjustment_diagnostic_safe hart.toNameRec [hartAdj] (1 / 2) hne⟩

/-- C3: every one of the four variants generated for a player with raw score
`s` has score `s`, times the bench fraction exactly when its role is sub,
times 2 exactly when it is a captain variant, times the resolved adjustment
factor. -/
theorem variant_score_formula (p : PlayerRecord) (pos : PlayerPosition)
    (adjs : List AdjEntry) (thr bf : ℚ) (i u : ℕ) (s : ℚ)
    (hs : p.score = some s) :
    ∃ vs, processPlayers pos [p] (some adjs) thr bf i u
        = Except.ok (vs, i + 1, u + 4) ∧
      vs.length = 4 ∧
      (∀ (r : Role) (c : Bool), ∃ v ∈ vs, v.bench = r ∧ v.captain = c) ∧
      ∀ v ∈ vs, v.score =
        s * (if v.bench = Role.sub then bf else 1) *
          (if v.captain then 2 else 1) *
          get_adjustment p.toNameRec adjs thr := by
  refine ⟨[mkVariant p pos false Role.starter s
      (get_adjustment p.toNameRec adjs thr) bf (i + 1) (u + 1),
    mkVariant p pos false Role.sub s
      (get_adjustment p.toNameRec adjs thr) bf (i + 1) (u + 2),
    mkVariant p pos true Role.starter s
      (get_adjustment p.toNameRec adjs thr) bf (i + 1) (u + 3),
    mkVariant p pos true Role.sub s
      (get_adjustment p.toNameRec adjs thr) bf (i + 1) (u + 4)],
    ?_, rfl, ?_, ?_⟩
  · simp only [processPlayers, mkVariants, hs, adjOf, List.append_nil]
  · intro r c
    cases r <;> cases c
    · exact ⟨mkVariant p pos false Role.starter s
        (get_adjustment p.toNameRec adjs thr) bf (i + 1) (u + 1),
        by simp, rfl, rfl⟩
    · exact ⟨mkVariant p pos true Role.starter s
        (get_adjustment p.toNameRec adjs thr) bf (i + 1) (u + 3),
        by simp, rfl, rfl⟩
    · exact ⟨mkVariant p pos false Role.sub s
        (get_adjustment p.toNameRec adjs thr) bf (i + 1) (u + 2),
        by simp, rfl, rfl⟩
    · exact ⟨mkVariant p pos true Role.sub s
        (get_adjustment p.toNameRec adjs thr) bf (i + 1) (u + 4),
        by simp, rfl, rfl⟩
  · intro v hv
    simp only [List.mem_cons, List.not_mem_nil, or_false] at hv
    rcases hv with rfl | rfl | rfl | rfl <;> simp [mkVariant]

theorem variant_score_formula_witness :
    hart.score = some 10 ∧
    get_adjustment hart.toNameRec [hartAdj] (1 / 2) = 3 / 10 ∧
    get_adjustment hart.toNameRec [hartAdj] (1 / 5) = 1 ∧
    ∃ vs, processPlayers PlayerPosition.keeper [hart] (some [hartAdj])
        (1 / 2) (1 / 10) 0 990000 = Except.ok (vs, 1, 990004) ∧
      ∀ v ∈ vs, v.score =
        10 * (if v.bench = Role.sub then (1 / 10 : ℚ) else 1) *
          (if v.captain then 2 else 1) * (3 / 10) := by
  refine ⟨rfl, get_adjustment_hart_half, get_adjustment_hart_fifth, ?_⟩
  obtain ⟨vs, hok, hlen, hcomb, hscore⟩ :=
    variant_score_formula hart PlayerPosition.keeper [hartAdj] (1 / 2)
      (1 / 10) 0 990000 10 rfl
  refine ⟨vs, hok, ?_⟩
  intro v hv
  have h := hscore v hv
  rw [get_adjustment_hart_half] at h
  exact h

theorem processPlayers_none_error (pos : PlayerPosition)
    (adjs : Option (List AdjEntry)) (thr bf : ℚ) (ps : List PlayerRecord) :
    ∀ (i u : ℕ), (∃ p ∈ ps, p.score = none) →
      ∃ msg, processPlayers pos ps adjs thr bf i u = Except.error msg := by
  induction ps with
  | nil =>
    intro i u h
    simp at h
  | cons p rest ih =>
    intro i u h
    cases hs : p.score with
    | none =>
      have hmv : mkVariants p pos (adjOf adjs p thr) bf (i + 1) u =
          Except.error
            "TypeError: unsupported operand type for *: NoneType" := by
        unfold mkVariants
        rw [hs]
      exact ⟨"TypeError: unsupported operand type for *: NoneType",
        by simp only [processPlayers, hmv]⟩
    | some s =>
      have hrest : ∃ q ∈ rest, q.score = none := by
        rcases h with ⟨q, hq, hqs⟩
        rcases List.mem_cons.mp hq with rfl | hq2
        · rw [hs] at hqs
          cases hqs
        · exact ⟨q, hq2, hqs⟩
      obtain ⟨msg, hmsg⟩ := ih (i + 1) (u + 4) hrest
      cases hmv : mkVariants p pos (adjOf adjs p thr) bf (i + 1) u with
      | error e =>
        exfalso
        unfold mkVariants at hmv
        rw [hs] at hmv
        cases hmv
      | ok vs1 =>
        exact ⟨msg, by simp only [processPlayers, hmv, hmsg]⟩

theorem processAll_none_error (adjs : Option (List AdjEntry)) (thr bf : ℚ)
    (posLists : List (PlayerPosition × List PlayerRecord)) :
    ∀ (i u : ℕ), (∃ pr ∈ posLists, ∃ p ∈ pr.2, p.score = none) →
      ∃ msg, processAll posLists adjs thr bf i u = Except.error msg := by
  induction posLists with
  | nil =>
    intro i u h
    simp at h
  | cons pr rest ih =>
    intro i u h
    obtain ⟨pos, ps⟩ := pr
    rcases h with ⟨pr2, hpr2, p, hp, hps⟩
    rcases List.mem_cons.mp hpr2 with rfl | hmem
    · obtain ⟨msg, hmsg⟩ :=
        processPlayers_none_error pos adjs thr bf ps i u ⟨p, hp, hps⟩
      exact ⟨msg, by simp only [processAll, hmsg]⟩
    · cases hh : processPlayers pos ps adjs thr bf i u with
      | error e => exact ⟨e, by simp only [processAll, hh]⟩
      | ok t =>
        obtain ⟨vs1, ia, ua⟩ := t
        obtain ⟨msg, hmsg⟩ := ih ia ua ⟨pr2, hmem, p, hp, hps⟩
        exact ⟨msg, by simp only [processAll, hh, hmsg]⟩

/-- C6 counterexample: a pool with one healthy forward and one null-score
player makes the generator return an error; it does not skip the corrupt
record, warn, and emit the variants of the remaining players. -/
theorem null_score_aborts_cex :
    badPlayer.score = none ∧
    get_player_stats [mkP "Good" "Fwd" "c1" 5] [] [] [badPlayer] none 1
        (1 / 10) =
      Except.error "TypeError: unsupported operand type for *: NoneType" :=
  ⟨rfl, rfl⟩

/-- C6 (amended): a player record with a null score attribute aborts the
whole generation run with an error (the Python `points *= …` TypeError);
there is no skip-with-warning recovery. -/
theorem null_score_aborts
    (forwards midfielders defenders keepers : List PlayerRecord)
    (adjs : Option (List AdjEntry)) (thr bf : ℚ)
    (h : ∃ p ∈ forwards ++ midfielders ++ defenders ++ keepers,
      p.score = none) :
    ∃ msg, get_player_stats forwards midfielders defenders keepers adjs thr bf
      = Except.error msg := by
  have hex : ∃ pr ∈ [(PlayerPosition.forward, forwards),
      (PlayerPosition.midfielder, midfielders),
      (PlayerPosition.defender, defenders),
      (PlayerPosition.keeper, keepers)], ∃ p ∈ pr.2, p.score = none := by
    rcases h with ⟨p, hp, hps⟩
    simp only [List.mem_append] at hp
    rcases hp with ((h1 | h2) | h3) | h4
    · exact ⟨(PlayerPosition.forward, forwards), by simp, p, h1, hps⟩
    · exact ⟨(PlayerPosition.midfielder, midfielders), by simp, p, h2, hps⟩
    · exact ⟨(PlayerPosition.defender, defenders), by simp, p, h3, hps⟩
    · exact ⟨(PlayerPosition.keeper, keepers), by simp, p, h4, hps⟩
  obtain ⟨msg, hmsg⟩ := processAll_none_error adjs thr bf _ 0 990000 hex
  exact ⟨msg, by unfold get_player_stats; rw [hmsg]; rfl⟩

theorem null_score_aborts_witness :
    ∃ msg, get_player_stats [] [] [] [badPlayer] none 1 (1 / 10)
      = Except.error msg :=
  null_score_aborts [] [] [] [badPlayer] none 1 (1 / 10)
    ⟨badPlayer, by simp, rfl⟩

theorem extract_uids_ok_iff (names : List String) :
    (∃ us, extract_uids names = Except.ok us) ↔
      ∀ n ∈ names, (findUid n).isSome = true := by
  induction names with
  | nil =>
    constructor
    · intro _ n hn
      cases hn
    · intro _
      exact ⟨[], rfl⟩
  | cons n rest ih =>
    constructor
    · rintro ⟨us, hus⟩
      rw [extract_uids] at hus
      cases hfn : findUid n with
      | none =>
        rw [hfn] at hus
        cases hus
      | some u =>
        rw [hfn] at hus
        intro m hm
        rcases List.mem_cons.mp hm with rfl | hm2
        · rw [hfn]
          rfl
        · cases hrest : extract_uids rest with
          | error e =>
            rw [hrest] at hus
            cases hus
          | ok us2 => exact (ih.mp ⟨us2, hrest⟩) m hm2
    · intro hall
      obtain ⟨u, hu⟩ := Option.isSome_iff_exists.mp
        (hall n (List.mem_cons_self n rest))
      obtain ⟨us2, hus2⟩ := ih.mpr fun m hm =>
        hall m (List.mem_cons_of_mem n hm)
      exact ⟨u :: us2, by simp only [extract_uids, hu, hus2]⟩

/-- C7 counterexample: decoding a solver output of a single selected variant
succeeds and returns a 1-element roster; no 15-element check is performed
and no error of any kind is raised. -/
theorem decode_no_size_check_cex :
    decode_roster c7names c7pool = Except.ok c7out ∧
    c7out.length = 1 ∧ c7out.length ≠ 15 :=
  ⟨rfl, by decide, by decide⟩

/-- C7 (amended): the Result Decoder fails (with a ValueError, not a
`MalformedSolutionError`, which does not exist in the code) exactly when
some selected variant name lacks a parenthesized uid; otherwise it returns
the pool entries whose uid was selected, with no check that the result has
15 elements. -/
theorem decode_ok_iff (names : List String) (players : List Variant) :
    ((∃ r, decode_roster names players = Except.ok r) ↔
      ∀ n ∈ names, (findUid n).isSome = true) ∧
    ∀ uids, extract_uids names = Except.ok uids →
      decode_roster names players =
        Except.ok (players.filter fun v => decide (v.uid ∈ uids)) := by
  constructor
  · constructor
    · rintro ⟨r, hr⟩
      rw [decode_roster] at hr
      cases he : extract_uids names with
      | error e =>
        rw [he] at hr
        cases hr
      | ok us => exact (extract_uids_ok_iff names).mp ⟨us, he⟩
    · intro hall
      obtain ⟨us, hus⟩ := (extract_uids_ok_iff names).mpr hall
      exact ⟨players.filter fun v => decide (v.uid ∈ us),
        by simp only [decode_roster, hus]⟩
  · intro uids huids
    simp only [decode_roster, huids]

theorem decode_ok_iff_witness :
    decode_roster c7names c7pool =
      Except.ok (c7pool.filter fun v => decide (v.uid ∈ [990001])) :=
  (decode_ok_iff c7names c7pool).2 [990001] rfl

/-- C8 counterexample: with budget 100 and total cost 99.6 the true slack is
0.4, but the printed slack is `round(0.4) = 0`; a strictly positive
non-negligible slack is not reported unchanged. -/
theorem slack_rounded_cex :
    (100 : ℚ) - total_cost c8roster = 2 / 5 ∧
    reported_slack 100 c8roster = 0 ∧ (2 / 5 : ℚ) ≠ 0 := by
  have hcost : total_cost c8roster = 498 / 5 := by
    simp [total_cost, c8roster]
  refine ⟨by rw [hcost]; norm_num, ?_, by norm_num⟩
  unfold reported_slack under_budget pyRound
  rw [hcost]
  have h1 : (100 : ℚ) - 498 / 5 = 2 / 5 := by norm_num
  rw [h1]
  have h2 : (0 : ℚ) ≤ 2 / 5 := by norm_num
  rw [if_pos h2]
  have h3 : ⌊(2 / 5 : ℚ) + 1 / 2⌋ = 0 := by
    rw [Int.floor_eq_zero_iff]
    constructor <;> norm_num
  rw [h3]
  norm_num

/-- C8 (amended): the reported budget slack is the integer nearest to
budget − total cost (halves away from zero, Python 2 `round`); it is within
1/2 of the true slack but fractional slack values are not preserved. The
`if == 0` normalization only canonicalizes the float `-0.0`. -/
theorem reported_slack_integer (budget : ℚ) (roster : List Variant) :
    ∃ n : ℤ, reported_slack budget roster = (n : ℚ) ∧
      |(n : ℚ) - (budget - total_cost roster)| ≤ 1 / 2 := by
  unfold reported_slack under_budget pyRound
  set q := budget - total_cost roster with hq
  by_cases h0 : 0 ≤ q
  · rw [if_pos h0]
    have h1 : ((⌊q + 1 / 2⌋ : ℤ) : ℚ) ≤ q + 1 / 2 := Int.floor_le _
    have h2 : q + 1 / 2 < ((⌊q + 1 / 2⌋ : ℤ) : ℚ) + 1 := Int.lt_floor_add_one _
    by_cases hz : ((⌊q + 1 / 2⌋ : ℤ) : ℚ) = 0
    · rw [if_pos hz]
      rw [hz] at h1 h2
      refine ⟨0, by norm_num, ?_⟩
      rw [abs_le]
      constructor <;> push_cast <;> linarith
    · rw [if_neg hz]
      refine ⟨⌊q + 1 / 2⌋, rfl, ?_⟩
      rw [abs_le]
      constructor <;> linarith
  · rw [if_neg h0]
    have h1 : ((⌊-q + 1 / 2⌋ : ℤ) : ℚ) ≤ -q + 1 / 2 := Int.floor_le _
    have h2 : -q + 1 / 2 < ((⌊-q + 1 / 2⌋ : ℤ) : ℚ) + 1 := Int.lt_floor_add_one _
    by_cases hz : ((-⌊-q + 1 / 2⌋ : ℤ) : ℚ) = 0
    · rw [if_pos hz]
      have hz2 : ((⌊-q + 1 / 2⌋ : ℤ) : ℚ) = 0 := by
        push_cast at hz
        linarith
      rw [hz2] at h1 h2
      refine ⟨0, by norm_num, ?_⟩
      rw [abs_le]
      constructor <;> push_cast <;> linarith
    · rw [if_neg hz]
      refine ⟨-⌊-q + 1 / 2⌋, by push_cast; ring, ?_⟩
      rw [abs_le]
      constructor <;> push_cast <;> linarith

theorem team_similarity_zero_of_unmatched (roster1 roster2 : List NameRec)
    (players : List TDPlayer)
    (h : (∀ p ∈ players, in_roster p roster1 = false) ∨
         (∀ p ∈ players, in_roster p roster2 = false)) :
    team_similarity roster1 roster2 players = 0 := by
  have hnum :
      ((team_vectors roster1 roster2 players).map fun x => x.1 * x.2).sum
        = 0 := by
    apply List.sum_eq_zero
    intro y hy
    simp only [team_vectors, List.map_map, List.mem_map,
      Function.comp_apply] at hy
    obtain ⟨p, hp, hpy⟩ := hy
    rw [← hpy]
    rcases h with h1 | h1
    · have hin := h1 p hp
      by_cases h2 : in_roster p roster2 <;> simp [hin, h2]
    · have hin := h1 p hp
      by_cases h2 : in_roster p roster1 <;> simp [hin, h2]
  show ((team_vectors roster1 roster2 players).map fun x => x.1 * x.2).sum /
      (Real.sqrt (((team_vectors roster1 roster2 players).map
          fun x => x.1 * x.1).sum) *
        Real.sqrt (((team_vectors roster1 roster2 players).map
          fun x => x.2 * x.2).sum)) = 0
  rw [hnum, zero_div]

/-- C9 counterexample: with an empty first roster (zero matched weight
against every pool player) `team_similarity` silently returns a number (the
0/0 of the float code, rendered 0 by the `ℝ` division convention); no
`DegenerateSimilarityError` exists in the code and no error is raised. -/
theorem similarity_silent_nan_cex :
    (∀ p ∈ c9players, in_roster p ([] : List NameRec) = false) ∧
    team_similarity [] c9roster2 c9players = 0 :=
  ⟨fun _ _ => rfl,
   team_similarity_zero_of_unmatched [] c9roster2 c9players
     (Or.inl fun _ _ => rfl)⟩

/-- C9 (amended): when either roster matches no pool player (zero total
weight), the Roster Similarity Engine performs no degeneracy check and
silently returns the junk value of a division by zero (IEEE NaN in the
float code, 0 in this exact model) instead of failing with a defined
error. -/
theorem similarity_degenerate_silent (roster1 roster2 : List NameRec)
    (players : List TDPlayer)
    (h : (∀ p ∈ players, in_roster p roster1 = false) ∨
         (∀ p ∈ players, in_roster p roster2 = false)) :
    team_similarity roster1 roster2 players = 0 :=
  team_similarity_zero_of_unmatched roster1 roster2 players h

theorem similarity_degenerate_silent_witness :
    team_similarity [] c9roster2 c9players = 0 :=
  similarity_degenerate_silent [] c9roster2 c9players (Or.inl fun _ _ => rfl)

/-- C1: for any pool produced by the Variant Generator and any selection
drawn from it, the code's constraint lambda (budget, formation quotas,
captaincy, substitutes total, and `id%d ≤ 1` for every id below
`players[-1]['pid'] + 1`) is equivalent to the specification's constraint
list, whose uniqueness family ranges over the distinct player ids of the
pool. -/
theorem optimize_constraints_formulation
    (forwards midfielders defenders keepers : List PlayerRecord)
    (adjs : Option (List AdjEntry)) (thr bf budget : ℚ)
    (pool : List Variant)
    (hok : get_player_stats forwards midfielders defenders keepers adjs thr bf
      = Except.ok pool)
    (hne : pool ≠ []) (sel : List Variant) (hsel : ∀ v ∈ sel, v ∈ pool) :
    constraints budget (lastPid pool + 1) sel ↔
      specConstraints budget pool sel := by
  unfold get_player_stats at hok
  cases hpa : processAll
      [ (PlayerPosition.forward, forwards),
        (PlayerPosition.midfielder, midfielders),
        (PlayerPosition.defender, defenders),
        (PlayerPosition.keeper, keepers) ] adjs thr bf 0 990000 with
  | error e =>
    rw [hpa] at hok
    cases hok
  | ok t =>
    obtain ⟨vs, i2, u2⟩ := t
    rw [hpa] at hok
    simp only [Except.map, Except.ok.injEq] at hok
    subst hok
    obtain ⟨-, hpid, -, hlast⟩ := processAll_spec _ _ _ _ _ _ _ _ _ hpa
    have hub : ∀ v ∈ vs, v.pid ≤ lastPid vs := by
      intro v hv
      unfold lastPid
      rw [hlast hne default]
      exact (hpid v hv).2
    rw [constraints_iff_counts]
    unfold countConstraints specConstraints
    constructor
    · rintro ⟨h1, h2, h3, h4, h5, h6, h7, h8, h9, h10, h11, h12, h13, h14, hu⟩
      refine ⟨h1, h2, h3, h4, h5, h6, h7, h8, h9, h10, h11, h12, h13, h14, ?_⟩
      intro i hi
      obtain ⟨v, hv, rfl⟩ := List.mem_map.mp hi
      exact hu v.pid (Nat.lt_succ_of_le (hub v hv))
    · rintro ⟨h1, h2, h3, h4, h5, h6, h7, h8, h9, h10, h11, h12, h13, h14, hu⟩
      refine ⟨h1, h2, h3, h4, h5, h6, h7, h8, h9, h10, h11, h12, h13, h14, ?_⟩
      intro i hi
      by_cases hex : ∃ v, v ∈ sel ∧ v.pid = i
      · obtain ⟨v, hv, rfl⟩ := hex
        exact hu v.pid (List.mem_map.mpr ⟨v, hsel v hv, rfl⟩)
      · have h0 : countPid i sel = 0 :=
          countPid_eq_zero i sel fun v hv he => hex ⟨v, hv, he⟩
        rw [h0]
        exact Nat.zero_le 1

theorem optimize_constraints_formulation_witness :
    constraints 100 (lastPid cexPool + 1) cexSel ↔
      specConstraints 100 cexPool cexSel :=
  optimize_constraints_formulation cexForwards cexMids cexDefs cexKeepers
    none 1 (1 / 10) 100 cexPool rfl (by decide) cexSel
    (fun v hv => List.mem_of_mem_filter hv)

theorem cex_constraints_holds : constraints 100 (lastPid cexPool + 1) cexSel := by
  rw [constraints_iff_counts]
  refine ⟨?_, ?_⟩
  · have hc : cexSel.map Variant.cost =
        [1, 1, 1, 1, 1, 1, 1, 1, 1, 1, 1, 1, 1, 1, 1] := rfl
    unfold sumF
    rw [hc]
    norm_num
  · decide

/-- C2 counterexample: a concrete selection from the generated pool that
satisfies every constraint of the formulator while its unique captain
variant is a substitute (the sub-captain variant of keeper Kb), so the
constraint set does not force the captain to be a starter. -/
theorem captain_sub_satisfies_constraints :
    constraints 100 (lastPid cexPool + 1) cexSel ∧
    (∀ v ∈ cexSel, v ∈ cexPool) ∧
    (cexSel.filter fun v => v.captain).length = 1 ∧
    ∀ v ∈ cexSel, v.captain = true → v.bench = Role.sub := by
  refine ⟨cex_constraints_holds, ?_, by decide, by decide⟩
  intro v hv
  exact List.mem_of_mem_filter hv

/-- C2 (amended): every selection satisfying the constraint set contains
exactly one captain variant among its selected variants, but nothing forces
that captain to be a starter. -/
theorem constraints_unique_captain (budget : ℚ) (allIds : ℕ)
    (sel : List Variant) (h : constraints budget allIds sel) :
    (sel.filter fun v => v.captain).length = 1 :=
  ((constraints_iff_counts budget allIds sel).mp
    h).2.2.2.2.2.2.2.2.2.2.2.2.1

theorem constraints_unique_captain_witness :
    (cexSel.filter fun v => v.captain).length = 1 :=
  constraints_unique_captain 100 (lastPid cexPool + 1) cexSel
    cex_constraints_holds
